import Mathlib

/-!
# Verification of the CDP code generator (`build/generate.py`)

A shallow embedding of the IDL-to-Python compiler in
`python-chrome-devtools-protocol`.  The generator reads Chrome DevTools
Protocol schema nodes (domains, types, commands, events) and emits Python
source text; the emitted text in turn has a runtime marshalling behaviour
(`to_json` / `from_json`).  We embed both levels:

* the generator's own pure string/ordering logic (`CdpType.generate_code`
  dispatch, property sorting, keyword lists, method strings, enum variant
  lines, `ref_to_python`, the `main`/`parse` driver's effect order), and
* an interpreter for the *generated* marshalling code, one level deep:
  instances of referenced generated types are modelled by the wire value
  their `to_json` produces.

Machine integers do not occur; JSON numbers relevant to the claims are
integers and strings.  Fallible runtime behaviour of generated code
(`TypeError`, `ValueError`, `KeyError`) is modelled with `Option`, where
`none` is an uncaught runtime error.
-/

namespace Cdp

/-- A JSON wire value (`T_JSON_DICT` entries). Objects are association
lists in insertion order, matching Python `dict` semantics. -/
inductive Wire where
  | vNull : Wire
  | vStr : String → Wire
  | vInt : Int → Wire
  | vBool : Bool → Wire
  | vList : List Wire → Wire
  | vObj : List (String × Wire) → Wire
  deriving Repr

/-- A Python runtime value held in a generated dataclass field or passed to
a generated command function.  An instance of a generated type is modelled
by the wire value its `to_json()` returns (`inst`); plain wire-shaped
values are `raw`; `listRaw` / `listInst` are lists thereof; `none` is
Python `None`, the absent-marker for optional fields. -/
inductive PyVal where
  | none : PyVal
  | raw : Wire → PyVal
  | inst : Wire → PyVal
  | listRaw : List Wire → PyVal
  | listInst : List Wire → PyVal
  deriving Repr

/-! ## Naming service (external collaborator)

Model of `inflection.underscore` from the third-party `inflection`
library, which the generator treats as a pure casing function.  The
library applies, in order:
1. `([A-Z]+)([A-Z][a-z])` → `\1_\2`
2. `([a-z\d])([A-Z])` → `\1_\2`
3. `-` → `_`, then lowercase.
Both regex passes insert an underscore between adjacent characters; the
character-level recursion below inserts `_` between `c₁c₂` when either
`c₁` is lower/digit and `c₂` is upper (rule 2), or `c₁` and `c₂` are
upper and the character after `c₂` is lower (rule 1). -/
def underscoreAux : List Char → List Char
  | [] => []
  | [c] => [c]
  | c₁ :: c₂ :: rest =>
      if (c₁.isLower || c₁.isDigit) && c₂.isUpper then
        c₁ :: '_' :: underscoreAux (c₂ :: rest)
      else
        match rest with
        | c₃ :: _ =>
            if c₁.isUpper && c₂.isUpper && c₃.isLower then
              c₁ :: '_' :: underscoreAux (c₂ :: rest)
            else
              c₁ :: underscoreAux (c₂ :: rest)
        | [] => c₁ :: underscoreAux (c₂ :: rest)

/-- `inflection.underscore`: snake-case a camel-cased word. -/
def underscore (s : String) : String :=
  String.mk ((underscoreAux s.data).map (fun c =>
    if c = '-' then '_' else c.toLower))

/-- Python `str.upper()` (ASCII identifiers only in CDP schemas). -/
def pyUpper (s : String) : String :=
  String.mk (s.data.map Char.toUpper)

/-! ## Reference resolver: `ref_to_python`

`ref_to_python` checks `'.' in ref`; when a dot is present it evaluates
`domain, subtype = ref.split('.')`, a two-element unpacking that raises
`ValueError` if the split does not give exactly two parts.  `splitDots`
models Python's `str.split('.')`. -/
def splitDots : List Char → List (List Char)
  | [] => [[]]
  | c :: cs =>
      if c = '.' then [] :: splitDots cs
      else
        match splitDots cs with
        | [] => [[c]]
        | h :: t => (c :: h) :: t

/-- `ref_to_python(ref)`; `Option.none` models the `ValueError` raised by
the two-element unpacking of `ref.split('.')`. -/
def refToPython (ref : String) : Option String :=
  if ref.data.contains '.' then
    match splitDots ref.data with
    | [domain, subtype] =>
        some (underscore (String.mk domain) ++ "." ++ String.mk subtype)
    | _ => Option.none
  else
    some ref

/-! ## IR model -/

/-- `CdpPrimitiveType`: map from a CDP scalar tag to the Python type name
(the enum's `.value`).  `Option.none` models the `KeyError` raised by an
unknown index. -/
def cdpPrimitiveType : String → Option String
  | "any" => some "typing.Any"
  | "boolean" => some "bool"
  | "integer" => some "int"
  | "number" => some "float"
  | "object" => some "dict"
  | "string" => some "str"
  | _ => Option.none

/-- `CdpItems`: the element type of a repeated property. -/
structure CdpItems where
  type : Option String
  ref : Option String
  deriving Repr, DecidableEq

/-- `CdpProperty` (also used for `CdpParameter` and `CdpReturn`, which
subclass it without adding fields).  `enum` and inline docs are carried in
the source dataclass but unused by the behaviour modelled here; `enum` is
kept for fidelity. -/
structure CdpProperty where
  name : String
  description : Option String := Option.none
  type : Option String := Option.none
  ref : Option String := Option.none
  enum : List String := []
  items : Option CdpItems := Option.none
  optional : Bool := false
  deriving Repr, DecidableEq

/-- `CdpProperty.py_name`: the Python field identifier. -/
def pyName (p : CdpProperty) : String :=
  underscore p.name

/-- `CdpType`: a top-level CDP type. `enum = []` models the Python `None`
(both are falsy in the `generate_code` dispatch). -/
structure CdpType where
  id : String
  description : Option String := Option.none
  type : String
  items : Option CdpItems := Option.none
  enum : List String := []
  properties : List CdpProperty := []
  deriving Repr, DecidableEq

/-! ## Shape classification (`CdpType.generate_code` dispatch) -/

inductive Shape where
  | enumeration
  | composite
  | primitiveWrapper
  deriving Repr, DecidableEq

/-- The dispatch at the top of `CdpType.generate_code`:
`if self.enum: ... elif self.properties: ... else: ...`. -/
def classify (t : CdpType) : Shape :=
  if t.enum ≠ [] then Shape.enumeration
  else if t.properties ≠ [] then Shape.composite
  else Shape.primitiveWrapper

/-! ## Property ordering (`CdpType.generate_class_code`)

`props = list(self.properties); props.sort(key=operator.attrgetter('optional'))`
— a stable sort on the boolean `optional` flag, i.e. a merge sort under
`a.optional ≤ b.optional`. -/

/-- The comparison `a.optional ≤ b.optional` used by the stable sort. -/
def leOpt (a b : CdpProperty) : Bool :=
  !a.optional || b.optional

/-- Stable insertion of `x` into a sorted list: `x` is placed before the
first element `y` it compares less-or-equal to, hence after every earlier
element it ties with. -/
def insertSorted (le : α → α → Bool) (x : α) : List α → List α
  | [] => [x]
  | y :: ys => if le x y then x :: y :: ys else y :: insertSorted le x ys

/-- Stable sort (Python `list.sort` is stable; any stable comparison sort
computes the same list, so insertion sort is a faithful model). -/
def stableSort (le : α → α → Bool) : List α → List α
  | [] => []
  | x :: xs => insertSorted le x (stableSort le xs)

/-- The property list in emitted order: the stable sort keyed on
`optional` performed by `generate_class_code`
(`props.sort(key=operator.attrgetter('optional'))`). -/
def sortedProps (ps : List CdpProperty) : List CdpProperty :=
  stableSort leOpt ps

/-! ## Runtime semantics of the generated marshalling code

The functions below interpret the Python statements emitted by
`CdpProperty.generate_to_json` / `generate_from_json` and their callers.
Python `dict` writes preserve insertion order and overwrite in place. -/

/-- `d[k] = w` on a Python dict modelled as an insertion-ordered
association list. -/
def dictSet (d : List (String × Wire)) (k : String) (w : Wire) :
    List (String × Wire) :=
  if d.any (fun kv => kv.1 = k) then
    d.map (fun kv => if kv.1 = k then (k, w) else kv)
  else
    d ++ [(k, w)]

/-- `d[k]` / `k in d` on a Python dict. -/
def lookupKey (d : List (String × Wire)) (k : String) : Option Wire :=
  (d.find? (fun kv => kv.1 = k)).map (fun kv => kv.2)

/-- Python constructor application `py_type(w)` for the type names
produced by `cdpPrimitiveType`, on wire-shaped arguments.  Conversions
that do not occur in the schema shapes verified here are conservatively
mapped to a runtime error. -/
def castPrimW (ty : String) (w : Wire) : Option Wire :=
  match ty, w with
  | "str", Wire.vStr s => some (Wire.vStr s)
  | "str", Wire.vInt n => some (Wire.vStr (toString n))
  | "str", Wire.vNull => some (Wire.vStr "None")
  | "int", Wire.vInt n => some (Wire.vInt n)
  | "int", Wire.vBool b => some (Wire.vInt (if b then 1 else 0))
  | "bool", Wire.vBool b => some (Wire.vBool b)
  | "bool", Wire.vNull => some (Wire.vBool false)
  | _, _ => Option.none

/-- `py_type(v)` on a runtime value.  `str(None)` is the string
`"None"`; `bool(None)` is `False`; `int(None)` and `float(None)` raise
`TypeError` (modelled as `Option.none`). -/
def castPrim (ty : String) (v : PyVal) : Option PyVal :=
  match v with
  | PyVal.none =>
      match ty with
      | "str" => some (PyVal.raw (Wire.vStr "None"))
      | "bool" => some (PyVal.raw (Wire.vBool false))
      | _ => Option.none
  | PyVal.raw w => (castPrimW ty w).map PyVal.raw
  | _ => Option.none

/-- The value expression of `CdpProperty.generate_to_json`:
`[i.to_json() for i in x]` / `[i for i in x]` / `x.to_json()` / `x`.
A runtime value whose shape does not match the property's declared shape
is a runtime error. -/
def encodeProp (p : CdpProperty) (v : PyVal) : Option Wire :=
  match p.items with
  | some it =>
      match it.ref with
      | some _ =>
          match v with
          | PyVal.listInst ws => some (Wire.vList ws)
          | _ => Option.none
      | Option.none =>
          match v with
          | PyVal.listRaw ws => some (Wire.vList ws)
          | _ => Option.none
  | Option.none =>
      match p.ref with
      | some _ =>
          match v with
          | PyVal.inst w => some w
          | _ => Option.none
      | Option.none =>
          match v with
          | PyVal.raw w => some w
          | PyVal.none => some Wire.vNull
          | _ => Option.none

/-- The whole statement emitted by `CdpProperty.generate_to_json`: for an
optional property the assignment is guarded by `if x is not None:`. -/
def propToJsonStep (p : CdpProperty) (v : PyVal) (d : List (String × Wire)) :
    Option (List (String × Wire)) :=
  if p.optional then
    match v with
    | PyVal.none => some d
    | _ => (encodeProp p v).map (dictSet d p.name)
  else
    (encodeProp p v).map (dictSet d p.name)

/-- Run the emitted `to_json` assignments for `ps` in order against a
dict, reading each property's runtime value from `vals` by its Python
field name (`self.<py_name>` / the parameter variable `<py_name>`). -/
def toJsonDict : List CdpProperty → (String → PyVal) → List (String × Wire) →
    Option (List (String × Wire))
  | [], _, d => some d
  | p :: ps, vals, d =>
      match propToJsonStep p (vals (pyName p)) d with
      | some d2 => toJsonDict ps vals d2
      | Option.none => Option.none

/-- The dict returned by the emitted `to_json` of a Composite type: the
assignments run in the sorted property order of `generate_class_code`. -/
def classToJson (t : CdpType) (vals : String → PyVal) :
    Option (List (String × Wire)) :=
  toJsonDict (sortedProps t.properties) vals []

/-- The branch expression of `CdpProperty.generate_from_json` (without
the optional guard): `Ref.from_json(json[k])` yields an instance whose
`to_json` image is the looked-up wire value; element-wise for repeated
properties; primitive elements pass through the emitted `py_type(i)`
constructor call. -/
def decodeExprCore (p : CdpProperty) (d : List (String × Wire)) : Option PyVal :=
  match p.items with
  | some it =>
      match lookupKey d p.name with
      | some (Wire.vList ws) =>
          match it.ref with
          | some _ => some (PyVal.listInst ws)
          | Option.none =>
              match cdpPrimitiveType (it.type.getD "") with
              | some pyty => (ws.mapM (castPrimW pyty)).map PyVal.listRaw
              | Option.none => Option.none
      | _ => Option.none
  | Option.none =>
      match lookupKey d p.name with
      | some w =>
          match p.ref with
          | some _ => some (PyVal.inst w)
          | Option.none => some (PyVal.raw w)
      | Option.none => Option.none

/-- The full expression of `CdpProperty.generate_from_json`: an optional
property decodes to `... if 'name' in json else None`. -/
def decodeExpr (p : CdpProperty) (d : List (String × Wire)) : Option PyVal :=
  if p.optional then
    match lookupKey d p.name with
    | Option.none => some PyVal.none
    | some _ => decodeExprCore p d
  else
    decodeExprCore p d

/-- The keyword names of the constructor call emitted inside the
Composite `from_json` (`generate_class_code` iterates `self.properties`
and writes `f'{p.name}={...}'`): the raw wire names, in schema order. -/
def classFromJsonKwNames (t : CdpType) : List String :=
  t.properties.map (fun p => p.name)

/-- The field names declared by the emitted Composite dataclass body, in
emitted (sorted) order; each declaration binds `p.py_name`. -/
def classDeclNames (t : CdpType) : List String :=
  (sortedProps t.properties).map pyName

/-- The keyword bindings computed by the emitted Composite `from_json`
before the constructor call: wire-name keyword, decoded value. -/
def classFromJsonKw (t : CdpType) (d : List (String × Wire)) :
    Option (List (String × PyVal)) :=
  t.properties.mapM (fun p => (decodeExpr p d).map (fun v => (p.name, v)))

/-! ## Enumeration emission (`CdpType.generate_enum_code`) -/

/-- The variant lines of the emitted enum class, in schema order: the
identifier is `inflection.underscore(member).upper()`, the value the
literal wire string. -/
def enumVariantLines (t : CdpType) : List (String × String) :=
  t.enum.map (fun m => (pyUpper (underscore m), m))

/-- The emitted enum `to_json`: `return self.value`. A variant is
identified with its bound literal string. -/
def enumToJson (v : String) : String := v

/-- The emitted enum `from_json`: `cls(json)` is a Python `Enum`
lookup-by-value, raising `ValueError` when no variant carries the value
(modelled as `Option.none`). -/
def enumFromJson (t : CdpType) (s : String) : Option String :=
  if s ∈ t.enum then some s else Option.none

/-! ## Commands (`CdpCommand.generate_code`) -/

structure CdpCommand where
  name : String
  description : Option String := Option.none
  experimental : Bool := false
  parameters : List CdpProperty := []
  returns : List CdpProperty := []
  domain : String
  deriving Repr

/-- The `params` dict built by the emitted command body: one
`generate_to_json` assignment per parameter, in declaration order,
reading arguments by Python parameter name. -/
def paramsDict (c : CdpCommand) (args : String → PyVal) :
    Option (List (String × Wire)) :=
  toJsonDict c.parameters args []

/-- The `cmd_dict` the emitted command yields: the `'method'` entry is
always written, the `'params'` entry only when the command has
parameters. -/
def cmdRequest (c : CdpCommand) (args : String → PyVal) :
    Option (List (String × Wire)) :=
  match paramsDict c args with
  | some pd =>
      some ([("method", Wire.vStr (c.domain ++ "." ++ c.name))] ++
        (if c.parameters ≠ [] then [("params", Wire.vObj pd)] else []))
  | Option.none => Option.none

/-- `CdpReturn.generate_return`: the `generate_from_json` expression,
wrapped — when the return's CDP type is a primitive tag — in a call of
the corresponding Python type constructor.  The wrap encloses the whole
optional-guard conditional, so the cast also applies to the `None`
branch. -/
def decodeReturn (r : CdpProperty) (d : List (String × Wire)) : Option PyVal :=
  match decodeExpr r d with
  | some v =>
      match cdpPrimitiveType (r.type.getD "") with
      | some pyty => castPrim pyty v
      | Option.none => some v
  | Option.none => Option.none

/-- What the resumed generator produces after `json = yield cmd_dict`. -/
inductive CmdResult where
  | noValue : CmdResult
  | single : PyVal → CmdResult
  | tuple : List PyVal → CmdResult
  deriving Repr

/-- The resume phase of the emitted command: no `return` statement for
zero returns, a single decoded value for one, a tuple of decoded values
in declaration order otherwise. -/
def commandResume (c : CdpCommand) (resp : List (String × Wire)) :
    Option CmdResult :=
  match c.returns with
  | [] => some CmdResult.noValue
  | [r] => (decodeReturn r resp).map CmdResult.single
  | rs => (rs.mapM (fun r => decodeReturn r resp)).map CmdResult.tuple

/-! ## Events (`CdpEvent.generate_code`) -/

structure CdpEvent where
  name : String
  description : Option String := Option.none
  parameters : List CdpProperty := []
  domain : String
  deriving Repr

/-- The tag of the emitted `@event_class(...)` decorator. -/
def eventTag (e : CdpEvent) : String :=
  e.domain ++ "." ++ e.name

/-- The parameter list in the order the event dataclass body is emitted:
`generate_code` iterates `self.parameters` directly, with no sorting. -/
def eventEmitOrder (e : CdpEvent) : List CdpProperty :=
  e.parameters

/-- The field names of the emitted event dataclass, in emitted order. -/
def eventFieldNames (e : CdpEvent) : List String :=
  (eventEmitOrder e).map pyName

/-- One keyword binding of the emitted event `from_json`
(`CdpParameter.generate_from_json`): Python field-name keyword, decoded
value passed through the primitive constructor when the parameter's CDP
type is a primitive tag. -/
def eventParamKw (p : CdpProperty) (d : List (String × Wire)) :
    Option (String × PyVal) :=
  match decodeExpr p d with
  | some v =>
      match cdpPrimitiveType (p.type.getD "") with
      | some pyty => (castPrim pyty v).map (fun v2 => (pyName p, v2))
      | Option.none => some (pyName p, v)
  | Option.none => Option.none

/-- The keyword bindings of the emitted event `from_json`, one per
parameter in schema order. -/
def eventFromJsonKw (e : CdpEvent) (d : List (String × Wire)) :
    Option (List (String × PyVal)) :=
  e.parameters.mapM (fun p => eventParamKw p d)

/-! ## Driver (`parse` and `main`) -/

/-- The parts of an input schema document the driver inspects before and
while writing output: the version pair and the domain names. -/
structure CdpSchema where
  versionMajor : String
  versionMinor : String
  domains : List String
  deriving Repr, DecidableEq

/-- `parse`: `assert (version['major'], version['minor']) == ('1', '3')`;
`Option.none` models the `AssertionError` aborting the run. -/
def parseSchema (s : CdpSchema) : Option (List String) :=
  if s.versionMajor = "1" ∧ s.versionMinor = "3" then some s.domains
  else Option.none

/-- The parse loop of `main`: each input document parsed in order, the
first failure aborting the whole run. -/
def parseAll : List CdpSchema → Option (List String)
  | [] => some []
  | s :: ss =>
      match parseSchema s with
      | some ds => (parseAll ss).map (fun rest => ds ++ rest)
      | Option.none => Option.none

/-- Filesystem effects of `main`, in program order. -/
inductive FsOp where
  | mkdirOutput : FsOp
  | clearOutput : FsOp
  | writeModule : String → FsOp
  | writeInit : FsOp
  | touchMarker : FsOp
  deriving Repr, DecidableEq

/-- The effect trace of `main` and whether the run completed:
`output_path.mkdir` and `clear_dirs` run first, then all inputs are
parsed (a version-assert failure aborts here), then one module file per
domain is written in lexicographic domain order, then the `__init__.py`
and the `py.typed` marker. -/
def mainRun (schemas : List CdpSchema) : List FsOp × Bool :=
  let pre := [FsOp.mkdirOutput, FsOp.clearOutput]
  match parseAll schemas with
  | Option.none => (pre, false)
  | some domains =>
      let sorted := stableSort (fun a b => decide (a ≤ b)) domains
      (pre ++ sorted.map (fun d => FsOp.writeModule (underscore d)) ++
        [FsOp.writeInit, FsOp.touchMarker], true)

/-! ## Concrete schema nodes

Inputs taken from the repository's own test suite
(`build/test_generate.py`), used as evaluation points. -/

/-- The camel-cased optional `relatedNodes` property of `AXValue`. -/
def axRelatedNodes : CdpProperty :=
  { name := "relatedNodes", type := some "array",
    items := some { type := Option.none, ref := some "AXRelatedNode" },
    optional := true }

/-- The `AXValue` Composite type of `test_cdp_class_type`. -/
def axValue : CdpType :=
  { id := "AXValue", type := "object",
    properties := [
      { name := "type", ref := some "AXValueType" },
      { name := "value", type := some "any", optional := true },
      axRelatedNodes,
      { name := "sources", type := some "array",
        items := some { type := Option.none, ref := some "AXValueSource" },
        optional := true } ] }

/-- A runtime `AXValue` instance with `value`, `related_nodes` and
`sources` bound to the absent-marker. -/
def axValueVals : String → PyVal := fun n =>
  if n = "type" then PyVal.inst (Wire.vStr "boolean") else PyVal.none

/-- The `AXValueSourceType` Enumeration of `test_cdp_enum_type`. -/
def axEnum : CdpType :=
  { id := "AXValueSourceType", type := "string",
    enum := ["attribute", "implicit", "style", "contents", "placeholder",
             "relatedElement"] }

/-- A malformed TypeDef carrying both `enum` and `properties`. -/
def ambiguousType : CdpType :=
  { id := "Weird", type := "string", enum := ["a"],
    properties := [{ name := "x", type := some "string" }] }

/-- The `Audits.getEncodedResponse` Command of
`test_cdp_command_multiple_return`: an optional primitive return
followed by two required integer returns. -/
def encodedResponseCmd : CdpCommand :=
  { name := "getEncodedResponse", domain := "Audits",
    parameters := [
      { name := "requestId", ref := some "Network.RequestId" },
      { name := "encoding", type := some "string" },
      { name := "quality", type := some "number", optional := true },
      { name := "sizeOnly", type := some "boolean", optional := true } ],
    returns := [
      { name := "body", type := some "string", optional := true },
      { name := "originalSize", type := some "integer" },
      { name := "encodedSize", type := some "integer" } ] }

/-- A command with one required and one optional integer parameter and no
returns (the shape used by the specification's two-phase example). -/
def exampleCmd : CdpCommand :=
  { name := "cmd", domain := "Dom",
    parameters := [
      { name := "x", type := some "integer" },
      { name := "y", type := some "integer", optional := true } ] }

/-- Arguments for `exampleCmd`: `x = 1`, `y` absent. -/
def exampleArgs : String → PyVal := fun n =>
  if n = "x" then PyVal.raw (Wire.vInt 1) else PyVal.none

/-- An event whose parameter list mixes an optional parameter before a
required one. -/
def mixEvent : CdpEvent :=
  { name := "thingHappened", domain := "Dom",
    parameters := [
      { name := "a", type := some "string", optional := true },
      { name := "b", type := some "integer" } ] }

/-- A schema document with version `1.2`. -/
def badSchema : CdpSchema :=
  { versionMajor := "1", versionMinor := "2", domains := ["DOM"] }

/-- A TypeDef with the mixed required/optional pattern of the ordering
specification: `[A(optional), B(required), C(optional), D(required)]`. -/
def mixedType : CdpType :=
  { id := "Mixed", type := "object",
    properties := [
      { name := "a", type := some "string", optional := true },
      { name := "b", type := some "string" },
      { name := "c", type := some "string", optional := true },
      { name := "d", type := some "string" } ] }

/-! # Theorems -/

/-! ## Stability of the property sort (claim C2 groundwork) -/

/-- Inserting an optional property into a split-form list walks past the
whole required prefix and lands at the head of the optional suffix. -/
theorem insertSorted_optional (p : CdpProperty) (hp : p.optional = true) :
    ∀ (reqs opts : List CdpProperty),
      (∀ f ∈ reqs, f.optional = false) →
      (∀ f ∈ opts, f.optional = true) →
      insertSorted leOpt p (reqs ++ opts) = reqs ++ p :: opts := by
  intro reqs
  induction reqs with
  | nil =>
      intro opts _ hopts
      cases opts with
      | nil => rfl
      | cons o os =>
          have ho : o.optional = true := hopts o (by simp)
          simp [insertSorted, leOpt, hp, ho]
  | cons f fs ih =>
      intro opts hreqs hopts
      have hf : f.optional = false := hreqs f (by simp)
      have : insertSorted leOpt p (fs ++ opts) = fs ++ p :: opts :=
        ih opts (fun q hq => hreqs q (by simp [hq])) hopts
      simp [insertSorted, leOpt, hp, hf, this]

/-- The stable sort of `generate_class_code` keeps each of the two groups
in schema order: its output is exactly the required properties followed by
the optional ones. -/
theorem sortedProps_eq_required_then_optional (ps : List CdpProperty) :
    sortedProps ps =
      ps.filter (fun p => !p.optional) ++ ps.filter (fun p => p.optional) := by
  induction ps with
  | nil => rfl
  | cons p t ih =>
      unfold sortedProps stableSort
      by_cases hp : p.optional = true
      · have hreqs : ∀ f ∈ t.filter (fun q => !q.optional), f.optional = false := by
          intro f hf
          have := List.of_mem_filter hf
          simpa using this
        have hopts : ∀ f ∈ t.filter (fun q => q.optional), f.optional = true := by
          intro f hf
          have := List.of_mem_filter hf
          simpa using this
        rw [show stableSort leOpt t = sortedProps t from rfl, ih,
          insertSorted_optional p hp _ _ hreqs hopts]
        simp [List.filter_cons, hp]
      · have hp' : p.optional = false := by simpa using hp
        rw [show stableSort leOpt t = sortedProps t from rfl, ih]
        have hfront : insertSorted leOpt p
            (t.filter (fun q => !q.optional) ++ t.filter (fun q => q.optional)) =
            p :: (t.filter (fun q => !q.optional) ++
              t.filter (fun q => q.optional)) := by
          cases h : t.filter (fun q => !q.optional) ++
              t.filter (fun q => q.optional) with
          | nil => simp [insertSorted]
          | cons q qs => simp [insertSorted, leOpt, hp']
        rw [hfront]
        simp [List.filter_cons, hp']

/-- C2: for every Composite TypeDef, the emitted field declaration order is
exactly all required properties in schema order followed by all optional
properties in schema order — the stable sort keyed on the `optional` flag
in `generate_class_code` realises exactly this split; on the pattern
`[A(optional), B(required), C(optional), D(required)]` the emitted order is
`[B, D, A, C]`. -/
theorem composite_fields_required_then_optional (t : CdpType) :
    sortedProps t.properties =
      t.properties.filter (fun p => !p.optional) ++
        t.properties.filter (fun p => p.optional) ∧
    classDeclNames t =
      (t.properties.filter (fun p => !p.optional) ++
        t.properties.filter (fun p => p.optional)).map pyName ∧
    (sortedProps mixedType.properties).map (fun p => p.name) =
      ["b", "d", "a", "c"] := by
  refine ⟨sortedProps_eq_required_then_optional t.properties, ?_, ?_⟩
  · unfold classDeclNames
    rw [sortedProps_eq_required_then_optional]
  · decide

/-- C3: the shape classification of `generate_code` follows the fixed
precedence enum → properties → primitive, first match wins; a TypeDef
carrying both `enum` and `properties` is emitted as an Enumeration, and
the classification is total (`classify` is a total function into the
three shapes). -/
theorem classify_precedence (t : CdpType) :
    (t.enum ≠ [] → classify t = Shape.enumeration) ∧
    (t.enum = [] → t.properties ≠ [] → classify t = Shape.composite) ∧
    (t.enum = [] → t.properties = [] → classify t = Shape.primitiveWrapper) := by
  refine ⟨?_, ?_, ?_⟩ <;> intros <;> simp [classify, *]

/-- Witness for C3 at the TypeDef carrying both `enum` and `properties`:
it classifies as an Enumeration. -/
theorem classify_precedence_witness :
    Cdp.ambiguousType.enum ≠ [] ∧
    Cdp.ambiguousType.properties ≠ [] ∧
    classify Cdp.ambiguousType = Shape.enumeration :=
  ⟨by decide, by decide, (classify_precedence Cdp.ambiguousType).1 (by decide)⟩

/-! ## Keys written by the emitted `to_json` (claims C4 and C5 groundwork) -/

/-- A Python dict assignment either overwrites an existing key (key list
unchanged) or appends the new key. -/
theorem dictSet_keys (d : List (String × Wire)) (k : String) (w : Wire) :
    (dictSet d k w).map Prod.fst = d.map Prod.fst ∨
    (dictSet d k w).map Prod.fst = d.map Prod.fst ++ [k] := by
  unfold dictSet
  split
  · left
    rw [List.map_map]
    apply List.map_congr_left
    intro kv _
    by_cases hkv : kv.1 = k
    · simp [Function.comp, hkv]
    · simp [Function.comp, hkv]
  · right
    simp

/-- An optional property whose runtime value is the absent-marker emits
no assignment. -/
theorem propToJsonStep_absent (p : CdpProperty) (acc : List (String × Wire))
    (hopt : p.optional = true) :
    propToJsonStep p PyVal.none acc = some acc := by
  simp [propToJsonStep, hopt]

/-- A successful `generate_to_json` statement leaves the dict unchanged
or writes exactly the property's own wire key. -/
theorem propToJsonStep_keys {p : CdpProperty} {v : PyVal}
    {acc d2 : List (String × Wire)}
    (h : propToJsonStep p v acc = some d2) :
    d2 = acc ∨ ∃ w, d2 = dictSet acc p.name w := by
  unfold propToJsonStep at h
  split at h
  · cases v with
    | none =>
        left
        exact (Option.some.inj h).symm
    | raw w =>
        rcases Option.map_eq_some'.mp h with ⟨w2, _, hw2⟩
        exact Or.inr ⟨w2, hw2.symm⟩
    | inst w =>
        rcases Option.map_eq_some'.mp h with ⟨w2, _, hw2⟩
        exact Or.inr ⟨w2, hw2.symm⟩
    | listRaw ws =>
        rcases Option.map_eq_some'.mp h with ⟨w2, _, hw2⟩
        exact Or.inr ⟨w2, hw2.symm⟩
    | listInst ws =>
        rcases Option.map_eq_some'.mp h with ⟨w2, _, hw2⟩
        exact Or.inr ⟨w2, hw2.symm⟩
  · rcases Option.map_eq_some'.mp h with ⟨w2, _, hw2⟩
    exact Or.inr ⟨w2, hw2.symm⟩

/-- If every property in the list either has a different wire name than
`k` or is skipped (optional with absent value), then running the emitted
`to_json` assignments never writes the key `k`. -/
theorem toJsonDict_keys_not_mem {k : String} :
    ∀ (ps : List CdpProperty) (vals : String → PyVal)
      (acc d : List (String × Wire)),
      (∀ q ∈ ps, q.name ≠ k ∨
        (q.optional = true ∧ vals (pyName q) = PyVal.none)) →
      k ∉ acc.map Prod.fst →
      toJsonDict ps vals acc = some d →
      k ∉ d.map Prod.fst := by
  intro ps
  induction ps with
  | nil =>
      intro vals acc d _ hacc heq
      unfold toJsonDict at heq
      rwa [← Option.some.inj heq]
  | cons p t ih =>
      intro vals acc d hq hacc heq
      unfold toJsonDict at heq
      cases hstep : propToJsonStep p (vals (pyName p)) acc with
      | none =>
          rw [hstep] at heq
          cases heq
      | some d2 =>
          rw [hstep] at heq
          refine ih vals d2 d (fun q hq2 => hq q (by simp [hq2])) ?_ heq
          rcases hq p (by simp) with hne | ⟨hopt, hnone⟩
          · rcases propToJsonStep_keys hstep with rfl | ⟨w, rfl⟩
            · exact hacc
            · rcases dictSet_keys acc p.name w with hkeys | hkeys <;> rw [hkeys]
              · exact hacc
              · simp only [List.mem_append, List.mem_singleton]
                rintro (h | h)
                · exact hacc h
                · exact hne h.symm
          · rw [hnone, propToJsonStep_absent p acc hopt] at hstep
            rw [← Option.some.inj hstep]
            exact hacc

/-- C4: for a Composite TypeDef with an optional property, the emitted
`to_json` omits the property's wire key whenever its runtime field holds
the absent-marker, and the emitted `from_json` binding expression yields
the absent-marker whenever the wire object lacks that key. -/
theorem optional_absent_omitted_and_bound (t : CdpType) (p : CdpProperty)
    (vals : String → PyVal) (d dresp : List (String × Wire))
    (hmem : p ∈ t.properties) (hopt : p.optional = true)
    (habs : vals (pyName p) = PyVal.none)
    (hnodup : (t.properties.map (fun q => q.name)).Nodup)
    (hjson : classToJson t vals = some d)
    (hmiss : lookupKey dresp p.name = Option.none) :
    p.name ∉ d.map Prod.fst ∧ decodeExpr p dresp = some PyVal.none := by
  constructor
  · refine toJsonDict_keys_not_mem (sortedProps t.properties) vals [] d
      ?_ (by simp) hjson
    intro q hq2
    have hq3 : q ∈ t.properties := by
      rw [sortedProps_eq_required_then_optional] at hq2
      rcases List.mem_append.mp hq2 with h | h <;>
        exact List.mem_of_mem_filter h
    by_cases hname : q.name = p.name
    · have hqp : q = p := List.inj_on_of_nodup_map hnodup hq3 hmem hname
      right
      rw [hqp]
      exact ⟨hopt, habs⟩
    · exact Or.inl hname
  · simp [decodeExpr, hopt, hmiss]

/-- Witness for C4 at the `AXValue` type with `related_nodes` absent. -/
theorem optional_absent_omitted_and_bound_witness :
    axRelatedNodes ∈ axValue.properties ∧
    axRelatedNodes.optional = true ∧
    ("relatedNodes" ∉
        ([("type", Wire.vStr "boolean")] : List (String × Wire)).map Prod.fst ∧
      decodeExpr axRelatedNodes [("type", Wire.vStr "boolean")] =
        some PyVal.none) :=
  ⟨by decide, by decide,
    by
      have h := optional_absent_omitted_and_bound axValue axRelatedNodes
        axValueVals [("type", Wire.vStr "boolean")]
        [("type", Wire.vStr "boolean")]
        (by decide) (by decide) (by rfl) (by decide) (by rfl) (by rfl)
      exact h⟩

/-- C1 (refuted, code bug): the keyword names used in the emitted
Composite `from_json` constructor call are the raw wire names, while the
emitted field declarations bind the snake-cased Python names; on the
repository's own `AXValue` test type the keyword `relatedNodes` names no
declared field, so the generated `from_json` raises `TypeError` and the
round trip `from_wire(to_wire(v)) == v` cannot hold. -/
theorem composite_from_json_keyword_mismatch :
    classFromJsonKwNames axValue = ["type", "value", "relatedNodes", "sources"] ∧
    classDeclNames axValue = ["type", "value", "related_nodes", "sources"] ∧
    "relatedNodes" ∈ classFromJsonKwNames axValue ∧
    "relatedNodes" ∉ classDeclNames axValue := by
  refine ⟨by decide, by decide, by decide, by decide⟩

/-- C5: a command's emitted unit yields a request whose `method` entry is
the fully qualified `"{domain}.{commandName}"`, with the `params` mapping
attached right after it; optional parameters bound to the absent-marker
are omitted from `params`; with zero returns the resumed unit produces no
value for any response. -/
theorem command_request_and_resume (c : CdpCommand) (args : String → PyVal)
    (pd resp : List (String × Wire))
    (hne : c.parameters ≠ [])
    (hpd : paramsDict c args = some pd)
    (hnodup : (c.parameters.map (fun q => q.name)).Nodup)
    (hret : c.returns = []) :
    cmdRequest c args =
      some [("method", Wire.vStr (c.domain ++ "." ++ c.name)),
            ("params", Wire.vObj pd)] ∧
    (∀ p ∈ c.parameters, p.optional = true → args (pyName p) = PyVal.none →
        p.name ∉ pd.map Prod.fst) ∧
    commandResume c resp = some CmdResult.noValue := by
  refine ⟨?_, ?_, ?_⟩
  · unfold cmdRequest
    rw [hpd]
    simp [hne]
  · intro p hp hopt habs
    refine toJsonDict_keys_not_mem c.parameters args [] pd ?_ (by simp) hpd
    intro q hq
    by_cases hname : q.name = p.name
    · have hqp : q = p := List.inj_on_of_nodup_map hnodup hq hp hname
      right
      rw [hqp]
      exact ⟨hopt, habs⟩
    · exact Or.inl hname
  · simp [commandResume, hret]

/-- Witness for C5: the two-phase example `[x:int(required),
y:int(optional)]` invoked with `x = 1` and `y` absent. -/
theorem command_request_and_resume_witness :
    exampleCmd.parameters ≠ [] ∧
    paramsDict exampleCmd exampleArgs = some [("x", Wire.vInt 1)] ∧
    (cmdRequest exampleCmd exampleArgs =
        some [("method", Wire.vStr ("Dom" ++ "." ++ "cmd")),
              ("params", Wire.vObj [("x", Wire.vInt 1)])] ∧
      commandResume exampleCmd [("ok", Wire.vBool true)] =
        some CmdResult.noValue) :=
  ⟨by decide, by rfl,
    by
      have h := command_request_and_resume exampleCmd exampleArgs
        [("x", Wire.vInt 1)] [("ok", Wire.vBool true)]
        (by decide) (by rfl) (by decide) (by rfl)
      exact ⟨h.1, h.2.2⟩⟩

/-- C6 (refuted, code bug): `CdpReturn.generate_return` wraps the
primitive-type constructor around the *whole* optional-guard conditional,
so an optional string return missing from the response decodes to
`str(None)`, the literal string `"None"`, not the absent-marker — even
though the inner `generate_from_json` expression itself yields the
absent-marker.  The required integer returns and the declaration-order
tuple aggregation behave as specified. -/
theorem missing_optional_primitive_return_not_absent :
    commandResume encodedResponseCmd
        [("originalSize", Wire.vInt 5), ("encodedSize", Wire.vInt 3)] =
      some (CmdResult.tuple [PyVal.raw (Wire.vStr "None"),
        PyVal.raw (Wire.vInt 5), PyVal.raw (Wire.vInt 3)]) ∧
    decodeReturn { name := "body", type := some "string", optional := true }
        [("originalSize", Wire.vInt 5), ("encodedSize", Wire.vInt 3)] =
      some (PyVal.raw (Wire.vStr "None")) ∧
    decodeExpr { name := "body", type := some "string", optional := true }
        [("originalSize", Wire.vInt 5), ("encodedSize", Wire.vInt 3)] =
      some PyVal.none := by
  exact ⟨rfl, rfl, rfl⟩

/-! ## Events (claim C7) -/

/-- Every keyword emitted by `CdpParameter.generate_from_json` is the
parameter's Python name. -/
theorem eventParamKw_fst (p : CdpProperty) (d : List (String × Wire))
    (kv : String × PyVal) (h : eventParamKw p d = some kv) :
    kv.1 = pyName p := by
  unfold eventParamKw at h
  cases hdec : decodeExpr p d with
  | none =>
      rw [hdec] at h
      cases h
  | some v =>
      rw [hdec] at h
      cases hprim : cdpPrimitiveType (p.type.getD "") with
      | none =>
          rw [hprim] at h
          rw [← Option.some.inj h]
      | some pyty =>
          rw [hprim] at h
          rcases Option.map_eq_some'.mp h with ⟨v2, _, hv2⟩
          rw [← hv2]

/-- The keyword names of a successfully decoded event `from_json` call
are the Python parameter names in schema order. -/
theorem eventKw_names (d : List (String × Wire)) :
    ∀ (ps : List CdpProperty) (kws : List (String × PyVal)),
      ps.mapM (fun p => eventParamKw p d) = some kws →
      kws.map Prod.fst = ps.map pyName := by
  intro ps
  induction ps with
  | nil =>
      intro kws h
      simp only [List.mapM_nil, Option.pure_def, Option.some.injEq] at h
      rw [← h]
      rfl
  | cons p t ih =>
      intro kws h
      rw [List.mapM_cons] at h
      cases hp : eventParamKw p d with
      | none =>
          rw [hp] at h
          simp at h
      | some kv =>
          rw [hp] at h
          cases ht : t.mapM (fun q => eventParamKw q d) with
          | none =>
              rw [ht] at h
              simp at h
          | some kvs =>
              rw [ht] at h
              simp only [Option.bind_eq_bind, Option.some_bind,
                Option.pure_def, Option.some.injEq] at h
              rw [← h]
              simp [eventParamKw_fst p d kv hp, ih kvs ht]

/-- C7 counterexample: an event whose optional parameter precedes a
required one is emitted in raw schema order, not in the
required-before-optional order of Composite types. -/
theorem event_fields_not_sorted_counterexample :
    eventEmitOrder mixEvent ≠ sortedProps mixEvent.parameters ∧
    eventFieldNames mixEvent = ["a", "b"] ∧
    (sortedProps mixEvent.parameters).map pyName = ["b", "a"] := by
  refine ⟨by decide, by decide, by decide⟩

/-- C7 (amended): the emitted event record's fields follow the raw schema
parameter order (no required-before-optional sorting is applied), the
record is tagged with the stable key `"{domain}.{eventName}"`, and the
emitted `from_json` binds each field by its Python name in the same
order. -/
theorem event_fields_schema_order_and_tag (e : CdpEvent)
    (d : List (String × Wire)) (kws : List (String × PyVal))
    (h : eventFromJsonKw e d = some kws) :
    eventEmitOrder e = e.parameters ∧
    eventFieldNames e = e.parameters.map pyName ∧
    eventTag e = e.domain ++ "." ++ e.name ∧
    kws.map Prod.fst = e.parameters.map pyName :=
  ⟨rfl, rfl, rfl, eventKw_names d e.parameters kws h⟩

/-- Witness for C7's amended statement at the mixed-order event. -/
theorem event_fields_schema_order_and_tag_witness :
    eventFromJsonKw mixEvent [("a", Wire.vStr "hi"), ("b", Wire.vInt 2)] =
      some [("a", PyVal.raw (Wire.vStr "hi")), ("b", PyVal.raw (Wire.vInt 2))] ∧
    (eventFieldNames mixEvent = mixEvent.parameters.map pyName ∧
      eventTag mixEvent = "Dom" ++ "." ++ "thingHappened" ∧
      [("a", PyVal.raw (Wire.vStr "hi")),
        ("b", PyVal.raw (Wire.vInt 2))].map Prod.fst =
        mixEvent.parameters.map pyName) :=
  ⟨by rfl,
    by
      have h := event_fields_schema_order_and_tag mixEvent
        [("a", Wire.vStr "hi"), ("b", Wire.vInt 2)]
        [("a", PyVal.raw (Wire.vStr "hi")), ("b", PyVal.raw (Wire.vInt 2))]
        (by rfl)
      exact ⟨h.2.1, h.2.2.1, h.2.2.2⟩⟩

/-! ## Enumerations (claim C8) -/

/-- C8: the emitted enum's `from_json` fails with `ValueError` on any
string outside the declared variant set, round-trips every declared
variant, and the variant identifiers are the upper-snake-case transforms
of their literals, emitted in schema order. -/
theorem enum_closure (t : CdpType) (s v : String)
    (hs : s ∉ t.enum) (hv : v ∈ t.enum) :
    enumFromJson t s = Option.none ∧
    enumFromJson t (enumToJson v) = some v ∧
    enumVariantLines t = t.enum.map (fun m => (pyUpper (underscore m), m)) := by
  refine ⟨?_, ?_, rfl⟩
  · simp [enumFromJson, hs]
  · simp [enumFromJson, enumToJson, hv]

/-- Witness for C8 at the `AXValueSourceType` test enum. -/
theorem enum_closure_witness :
    "bogus" ∉ axEnum.enum ∧ "relatedElement" ∈ axEnum.enum ∧
    enumVariantLines axEnum =
      [("ATTRIBUTE", "attribute"), ("IMPLICIT", "implicit"),
       ("STYLE", "style"), ("CONTENTS", "contents"),
       ("PLACEHOLDER", "placeholder"),
       ("RELATED_ELEMENT", "relatedElement")] ∧
    (enumFromJson axEnum "bogus" = Option.none ∧
      enumFromJson axEnum (enumToJson "relatedElement") =
        some "relatedElement") :=
  ⟨by decide, by decide, by decide,
    by
      have h := enum_closure axEnum "bogus" "relatedElement"
        (by decide) (by decide)
      exact ⟨h.1, h.2.1⟩⟩

/-! ## Driver effect order (claim C9) -/

/-- A schema whose version pair is not `("1","3")` makes the parse loop
abort. -/
theorem parseAll_none_of_bad_version (s : CdpSchema)
    (schemas : List CdpSchema) (hs : s ∈ schemas)
    (hv : ¬(s.versionMajor = "1" ∧ s.versionMinor = "3")) :
    parseAll schemas = Option.none := by
  induction schemas with
  | nil => cases hs
  | cons a t ih =>
      unfold parseAll
      rcases List.mem_cons.mp hs with rfl | hmem
      · simp [parseSchema, hv]
      · cases hps : parseSchema a with
        | none => rfl
        | some ds =>
            rw [ih hmem]
            rfl

/-- C9 counterexample: on a version-`1.2` schema the run fails, but the
output-directory clear has already executed — `clear_dirs` runs before
`parse` in `main`, so the mutation is finalized before the failure. -/
theorem clear_precedes_version_failure :
    (mainRun [badSchema]).2 = false ∧
    FsOp.clearOutput ∈ (mainRun [badSchema]).1 ∧
    parseSchema badSchema = Option.none := by
  refine ⟨by decide, by decide, by decide⟩

/-- C9 (amended): a version mismatch in any input schema aborts the run
fatally before any module file is written, but only after the output
directory has been created and cleared — the run is not atomic with
respect to pre-existing output. -/
theorem version_mismatch_aborts_after_clear (schemas : List CdpSchema)
    (s : CdpSchema) (hs : s ∈ schemas)
    (hv : ¬(s.versionMajor = "1" ∧ s.versionMinor = "3")) :
    mainRun schemas = ([FsOp.mkdirOutput, FsOp.clearOutput], false) ∧
    (∀ m, FsOp.writeModule m ∉ (mainRun schemas).1) ∧
    FsOp.clearOutput ∈ (mainRun schemas).1 := by
  have h := parseAll_none_of_bad_version s schemas hs hv
  refine ⟨?_, ?_, ?_⟩ <;> simp [mainRun, h]

/-- Witness for C9's amended statement at the version-`1.2` schema. -/
theorem version_mismatch_aborts_after_clear_witness :
    badSchema ∈ [badSchema] ∧
    ¬(badSchema.versionMajor = "1" ∧ badSchema.versionMinor = "3") ∧
    mainRun [badSchema] = ([FsOp.mkdirOutput, FsOp.clearOutput], false) :=
  ⟨by decide, by decide,
    (version_mismatch_aborts_after_clear [badSchema] badSchema
      (by decide) (by decide)).1⟩

/-! ## Reference resolution arity (claim C10) -/

theorem splitDots_ne_nil (cs : List Char) : splitDots cs ≠ [] := by
  cases cs with
  | nil => simp [splitDots]
  | cons c cs =>
      unfold splitDots
      split
      · simp
      · cases h : splitDots cs <;> simp [h]

theorem splitDots_length (cs : List Char) :
    (splitDots cs).length = (cs.filter (fun c => c = '.')).length + 1 := by
  induction cs with
  | nil => rfl
  | cons c cs ih =>
      unfold splitDots
      by_cases hc : c = '.'
      · simp [hc, List.filter_cons, ih]
      · rw [if_neg hc]
        cases h : splitDots cs with
        | nil => exact absurd h (splitDots_ne_nil cs)
        | cons hd tl =>
            rw [h] at ih
            show ((c :: hd) :: tl).length = _
            simpa [List.filter_cons, hc] using ih

theorem contains_dot_iff (cs : List Char) :
    cs.contains '.' = true ↔ '.' ∈ cs := by
  simp

/-- C10: `ref_to_python` raises on every reference with two or more dot
separators (the two-element unpacking of `split('.')` fails) and is total
on references with at most one dot. -/
theorem ref_to_python_arity (ref : String) :
    (2 ≤ (ref.data.filter (fun c => c = '.')).length →
      refToPython ref = Option.none) ∧
    ((ref.data.filter (fun c => c = '.')).length ≤ 1 →
      ∃ s, refToPython ref = some s) := by
  constructor
  · intro h2
    have hc : ref.data.contains '.' = true := by
      rw [contains_dot_iff]
      have hpos : 0 < (ref.data.filter (fun c => c = '.')).length := by omega
      rcases List.exists_mem_of_length_pos hpos with ⟨x, hx⟩
      have hx2 : x = '.' := by simpa using List.of_mem_filter hx
      rw [← hx2]
      exact List.mem_of_mem_filter hx
    have hlen := splitDots_length ref.data
    unfold refToPython
    rw [if_pos hc]
    cases hsd : splitDots ref.data with
    | nil => rfl
    | cons a t =>
        cases t with
        | nil => rfl
        | cons b t2 =>
            cases t2 with
            | nil =>
                exfalso
                rw [hsd] at hlen
                simp only [List.length_cons, List.length_nil] at hlen
                omega
            | cons c t3 => rfl
  · intro h1
    by_cases hc : ref.data.contains '.' = true
    · have hdotmem : '.' ∈ ref.data := (contains_dot_iff ref.data).mp hc
      have hmemf : '.' ∈ ref.data.filter (fun c => c = '.') :=
        List.mem_filter.mpr ⟨hdotmem, by simp⟩
      have hpos : 0 < (ref.data.filter (fun c => c = '.')).length :=
        List.length_pos.mpr (List.ne_nil_of_mem hmemf)
      have hlen := splitDots_length ref.data
      unfold refToPython
      rw [if_pos hc]
      cases hsd : splitDots ref.data with
      | nil => exact absurd hsd (splitDots_ne_nil ref.data)
      | cons a t =>
          cases t with
          | nil =>
              exfalso
              rw [hsd] at hlen
              simp only [List.length_cons, List.length_nil] at hlen
              omega
          | cons b t2 =>
              cases t2 with
              | nil => exact ⟨_, rfl⟩
              | cons c t3 =>
                  exfalso
                  rw [hsd] at hlen
                  simp only [List.length_cons, List.length_nil] at hlen
                  omega
    · unfold refToPython
      rw [if_neg hc]
      exact ⟨ref, rfl⟩

/-- Witness for C10: `"A.B.C"` fails, `"DOM.NodeId"` resolves. -/
theorem ref_to_python_arity_witness :
    (2 ≤ (("A.B.C" : String).data.filter (fun c => c = '.')).length ∧
      refToPython "A.B.C" = Option.none) ∧
    refToPython "DOM.NodeId" = some "dom.NodeId" :=
  ⟨⟨by decide, (ref_to_python_arity "A.B.C").1 (by decide)⟩, by rfl⟩

end Cdp
